import Mathlib

/-!
Verification of the `clean_data` pipeline and the Deli/FOC partition of
`src/customerorderdetail.py` (an Excel order-detail cleaning tool built on
pandas).  A DataFrame is modelled as a `List` of row records whose cells are
`Option`-valued (a `none` cell is a pandas NaN).  Each pandas column
operation of `clean_data` (lines 24-73) and of `main` (lines 112-114) is
translated into a column-level function below; `str` accessor semantics
(`na=False`, regex search rather than full match, `str.replace` replacing
every non-overlapping occurrence) are preserved.
-/

set_option maxRecDepth 10000

/-- One row of the uploaded table, with the columns `clean_data` reads:
`Type`, `Shipment Date`, `Description`, `No.`, plus the numeric passthrough
`Quantity`.  A `none` cell models a pandas NaN. -/
structure RawRow where
  type : Option String
  shipmentDate : Option String
  description : Option String
  no : Option String
  quantity : Option Int
deriving DecidableEq

/-- A calendar date as produced by `pd.to_datetime`. -/
structure Date where
  year : Nat
  month : Nat
  day : Nat
deriving DecidableEq

/-- A row of the cleaned table, fields in the projection order of
`clean_data` lines 63-68 (restricted to the columns present in the model). -/
structure CleanedRow where
  cid : Option String
  shipmentDate : Option Date
  customerName : Option String
  type : Option String
  no : Option String
  orderNo : Option String
  orderDate : Option Date
  description : Option String
  quantity : Option Int
deriving DecidableEq

/-- `Series.where(cond)`: keep the value when the per-cell predicate holds,
otherwise NaN; a NaN cell stays NaN (as in pandas, where the masks used in
`clean_data` keep NaN cells on the `where(... != 'Item')` side and the
`str.contains(..., na=False)` masks are `false` on NaN). -/
def optFilter (p : String → Bool) : Option String → Option String
  | some s => if p s then some s else none
  | none => none

/-- One step of `Series.ffill`: a non-empty cell keeps its value, an empty
cell takes the carried last-seen value. -/
def fallbackOpt (x acc : Option α) : Option α :=
  match x with
  | some v => some v
  | none => acc

/-- `Series.ffill` with an explicit carried last-seen value. -/
def ffillGo (acc : Option α) : List (Option α) → List (Option α)
  | [] => []
  | x :: rest => fallbackOpt x acc :: ffillGo (fallbackOpt x acc) rest

/-- `Series.ffill` (line 31, 41, 42, 47, 48, 57): forward-fill empty cells
from the most recent non-empty cell. -/
def ffill (xs : List (Option α)) : List (Option α) :=
  ffillGo none xs

/-- The last non-empty cell of a list, or `none`; `lastVal (xs.take (i+1))`
is the specification value of forward-fill at row `i`. -/
def lastVal : List (Option α) → Option α
  | [] => none
  | x :: rest =>
    match lastVal rest with
    | some v => some v
    | none => x

/-- Whether an 8-character window starts with the regex `\d{2}-\d{2}-\d{2}`
of line 34 (digits restricted to ASCII, as in the data). -/
def isDatePatAt : List Char → Bool
  | a :: b :: c :: d :: e :: f :: g :: h :: _ =>
    a.isDigit && b.isDigit && (c == '-') && d.isDigit && e.isDigit && (f == '-') &&
      g.isDigit && h.isDigit
  | _ => false

/-- `Series.str.contains(r"\d{2}-\d{2}-\d{2}")` (lines 37-38): regex search,
true when the pattern occurs anywhere in the string. -/
def containsDatePat : List Char → Bool
  | [] => false
  | c :: rest => isDatePatAt (c :: rest) || containsDatePat rest

/-- Whether a window starts with a match of the regex `Order No.` of line 54
(`.` is any character except a newline). -/
def markerAt : List Char → Bool
  | 'O' :: 'r' :: 'd' :: 'e' :: 'r' :: ' ' :: 'N' :: 'o' :: c :: _ => !(c == '\n')
  | _ => false

/-- `Series.str.contains('Order No.')` applied to one cell: regex search for
the marker pattern anywhere in the string. -/
def containsMarkerL : List Char → Bool
  | [] => false
  | c :: rest => markerAt (c :: rest) || containsMarkerL rest

/-- The line 54 mask on one `No.` cell, with `na=False`. -/
def containsMarkerOpt : Option String → Bool
  | some s => containsMarkerL s.toList
  | none => false

/-- Leap-year rule used by calendar-date validation. -/
def isLeap (y : Nat) : Bool :=
  y % 4 == 0 && (!(y % 100 == 0) || y % 400 == 0)

/-- Number of days of a month. -/
def daysInMonth (y m : Nat) : Nat :=
  if m == 2 then (if isLeap y then 29 else 28)
  else if m == 4 || m == 6 || m == 9 || m == 11 then 30
  else 31

/-- Whether year/month/day form a real calendar date. -/
def validDate (y m d : Nat) : Bool :=
  decide (1 ≤ m) && decide (m ≤ 12) && decide (1 ≤ d) && decide (d ≤ daysInMonth y m)

/-- Numeric value of a digit string. -/
def digitsToNat (l : List Char) : Nat :=
  l.foldl (fun n c => 10 * n + (c.toNat - 48)) 0

/-- Models the dateutil resolution used by `pd.to_datetime` on two numeric
day/month fields: month-first, falling back to day-first when the first
field cannot be a month; `none` when neither reading is a real date. -/
def mkDate (g1 g2 y : Nat) : Option Date :=
  if validDate y g1 g2 then some ⟨y, g1, g2⟩
  else if validDate y g2 g1 then some ⟨y, g2, g1⟩
  else none

/-- Models `pd.to_datetime(..., errors='coerce')` (line 42) on the strings
reaching it: an exact `dd-dd-dd` string is resolved as a calendar date
(two-digit years below 50 map to 2000+), anything else coerces to NaT. -/
def parseDashDate (s : String) : Option Date :=
  match s.toList with
  | [a, b, '-', d, e, '-', g, h] =>
    if a.isDigit && b.isDigit && d.isDigit && e.isDigit && g.isDigit && h.isDigit then
      let yy := digitsToNat [g, h]
      mkDate (digitsToNat [a, b]) (digitsToNat [d, e])
        (if yy < 50 then 2000 + yy else 1900 + yy)
    else none
  | _ => none

/-- Models `pd.to_datetime(..., errors='coerce')` (line 48) on the strings
reaching it, which have the extracted shape `\d{1,2}/\d{1,2}/\d{4}`:
month-first with day-first fallback, coercing to NaT when unparsable. -/
def parseSlashDate (s : String) : Option Date :=
  let l := s.toList
  let d1 := l.takeWhile Char.isDigit
  let r1 := l.dropWhile Char.isDigit
  if d1.length == 0 || decide (2 < d1.length) then none
  else
    match r1 with
    | '/' :: r2 =>
      let d2 := r2.takeWhile Char.isDigit
      let r3 := r2.dropWhile Char.isDigit
      if d2.length == 0 || decide (2 < d2.length) then none
      else
        match r3 with
        | '/' :: r4 =>
          let d3 := r4.takeWhile Char.isDigit
          let r5 := r4.dropWhile Char.isDigit
          if d3.length == 4 && r5.isEmpty then
            mkDate (digitsToNat d1) (digitsToNat d2) (digitsToNat d3)
          else none
        | _ => none
    | _ => none

/-- Matcher for `\d{1,2}/` at the head of a list: the greedy two-digit
attempt first, backtracking to one digit, as the regex engine does. -/
def matchD12slash : List Char → Option (List Char × List Char)
  | a :: b :: c :: rest =>
    if a.isDigit && b.isDigit && c == '/' then some ([a, b, c], rest)
    else if a.isDigit && b == '/' then some ([a, b], c :: rest)
    else none
  | [a, b] => if a.isDigit && b == '/' then some ([a, b], []) else none
  | _ => none

/-- Matcher for `\d{4}` at the head of a list. -/
def matchYear : List Char → Option (List Char × List Char)
  | a :: b :: c :: d :: rest =>
    if a.isDigit && b.isDigit && c.isDigit && d.isDigit then some ([a, b, c, d], rest)
    else none
  | _ => none

/-- Matcher for the date group `\d{1,2}/\d{1,2}/\d{4}` at the head of a
list, returning the matched characters and the remainder. -/
def matchDate (l : List Char) : Option (List Char × List Char) :=
  (matchD12slash l).bind fun p1 =>
    (matchD12slash p1.2).bind fun p2 =>
      (matchYear p2.2).map fun p3 => (p1.1 ++ p2.1 ++ p3.1, p3.2)

/-- Matcher for the order pattern `(\d{5,})\s+(\d{1,2}/\d{1,2}/\d{4})` of
line 45 anchored at the head of a list: a maximal digit run of length at
least 5, a nonempty whitespace run, then the date group.  (The runs are
maximal because the regex classes `\d` and `\s` are disjoint from what
follows them, so greedy matching cannot backtrack into shorter runs.)
Returns (digit run, whitespace run, date group, remainder). -/
def matchOrderAt (l : List Char) : Option (List Char × List Char × List Char × List Char) :=
  let ds := l.takeWhile Char.isDigit
  let r1 := l.dropWhile Char.isDigit
  if decide (ds.length < 5) then none
  else
    let ws := r1.takeWhile Char.isWhitespace
    let r2 := r1.dropWhile Char.isWhitespace
    if ws.length == 0 then none
    else (matchDate r2).map fun p => (ds, ws, p.1, p.2)

/-- The leftmost match of the order pattern in a string, as found by
`re.search` inside `Series.str.extract` (line 46). -/
structure OrderMatch where
  pre : List Char
  orderNo : List Char
  ws : List Char
  orderDate : List Char
  rest : List Char
deriving DecidableEq

/-- Leftmost search for the order pattern: try each start position from the
left, returning the first anchored match together with the text before and
after it. -/
def searchOrder : List Char → Option OrderMatch
  | [] => none
  | c :: r =>
    match matchOrderAt (c :: r) with
    | some (ds, ws, dt, rest) => some ⟨[], ds, ws, dt, rest⟩
    | none =>
      match searchOrder r with
      | some m => some ⟨c :: m.pre, m.orderNo, m.ws, m.orderDate, m.rest⟩
      | none => none

/-- Fuelled worker for `Series.str.replace(order_pattern, '', regex=True)`
(line 51), which like `re.sub` removes every non-overlapping match, scanning
left to right and continuing after each match.  Each removal consumes at
least one character, so `l.length` fuel always suffices. -/
def removeAllGo : Nat → List Char → List Char
  | 0, l => l
  | Nat.succ n, l =>
    match searchOrder l with
    | none => l
    | some m => m.pre ++ removeAllGo n m.rest

/-- `Series.str.replace(order_pattern, '', regex=True)` on one cell. -/
def removeAllOrder (l : List Char) : List Char :=
  removeAllGo l.length l

/-- `Series.str.strip()` (line 51): drop whitespace at both ends. -/
def stripL (l : List Char) : List Char :=
  ((l.dropWhile Char.isWhitespace).reverse.dropWhile Char.isWhitespace).reverse

/-- The line 51 Description rewrite on one cell: remove every order-pattern
match, then strip surrounding whitespace; a NaN cell stays NaN. -/
def descTransform (s : String) : String :=
  String.mk (stripL (removeAllOrder s.toList))

/-- Group 1 of the line 46 extract on one cell (`Order_No` before ffill). -/
def orderNoOf (v : Option String) : Option String :=
  v.bind fun s => (searchOrder s.toList).map fun m => String.mk m.orderNo

/-- Group 2 of the line 46 extract on one cell (`Order_Date` string before
ffill and parsing). -/
def orderDateStrOf (v : Option String) : Option String :=
  v.bind fun s => (searchOrder s.toList).map fun m => String.mk m.orderDate

/-- Line 29: `Customer_Name = Type.where(Type != 'Item')`. -/
def customerNameRawCol (df : List RawRow) : List (Option String) :=
  df.map fun r => optFilter (fun s => !(s == "Item")) r.type

/-- Line 30: `Type = Type.where(Type == 'Item')`. -/
def typeCol (df : List RawRow) : List (Option String) :=
  df.map fun r => optFilter (fun s => s == "Item") r.type

/-- Line 31: `Customer_Name = Customer_Name.ffill()`. -/
def customerNameCol (df : List RawRow) : List (Option String) :=
  ffill (customerNameRawCol df)

/-- Line 37: `CID = 'Shipment Date'.where(~contains(date_pattern))`. -/
def cidRawCol (df : List RawRow) : List (Option String) :=
  df.map fun r => optFilter (fun s => !(containsDatePat s.toList)) r.shipmentDate

/-- Line 41: `CID = CID.ffill()`. -/
def cidCol (df : List RawRow) : List (Option String) :=
  ffill (cidRawCol df)

/-- Line 38: `Shipment_Date = 'Shipment Date'.where(contains(date_pattern))`. -/
def shipRawCol (df : List RawRow) : List (Option String) :=
  df.map fun r => optFilter (fun s => containsDatePat s.toList) r.shipmentDate

/-- The ffill inside line 42: `Shipment_Date.ffill()` on the raw strings. -/
def shipFilledCol (df : List RawRow) : List (Option String) :=
  ffill (shipRawCol df)

/-- Line 42: `Shipment_Date = pd.to_datetime(Shipment_Date.ffill(), errors='coerce')`. -/
def shipmentDateCol (df : List RawRow) : List (Option Date) :=
  (shipFilledCol df).map fun v => v.bind parseDashDate

/-- Lines 46-47: extract group 1 from Description, then ffill. -/
def orderNoRawCol (df : List RawRow) : List (Option String) :=
  df.map fun r => orderNoOf r.description

/-- Line 47: `Order_No = Order_No.ffill()`. -/
def orderNoCol (df : List RawRow) : List (Option String) :=
  ffill (orderNoRawCol df)

/-- Lines 46, 48: extract group 2 from Description. -/
def orderDateRawCol (df : List RawRow) : List (Option String) :=
  df.map fun r => orderDateStrOf r.description

/-- The ffill inside line 48: `Order_Date.ffill()` on the raw strings. -/
def orderDateFilledCol (df : List RawRow) : List (Option String) :=
  ffill (orderDateRawCol df)

/-- Line 48: `Order_Date = pd.to_datetime(Order_Date.ffill(), errors='coerce')`. -/
def orderDateCol (df : List RawRow) : List (Option Date) :=
  (orderDateFilledCol df).map fun v => v.bind parseSlashDate

/-- Line 51: Description with every order-pattern match removed, stripped. -/
def descCol (df : List RawRow) : List (Option String) :=
  df.map fun r => r.description.map descTransform

/-- The untouched `No.` column (not modified before line 54). -/
def noRawCol (df : List RawRow) : List (Option String) :=
  df.map fun r => r.no

/-- The untouched `Quantity` passthrough column. -/
def quantityCol (df : List RawRow) : List (Option Int) :=
  df.map fun r => r.quantity

/-- Row `i` of the frame as it stands after line 51: all derived columns
assembled, `No.` still the original value. -/
def mkWork (df : List RawRow) (i : Nat) : CleanedRow :=
  { cid := (cidCol df).getD i none
    shipmentDate := (shipmentDateCol df).getD i none
    customerName := (customerNameCol df).getD i none
    type := (typeCol df).getD i none
    no := (noRawCol df).getD i none
    orderNo := (orderNoCol df).getD i none
    orderDate := (orderDateCol df).getD i none
    description := (descCol df).getD i none
    quantity := (quantityCol df).getD i none }

/-- The frame after line 51, as a list of rows. -/
def work1 (df : List RawRow) : List CleanedRow :=
  (List.range df.length).map (mkWork df)

/-- The line 54 row mask: keep rows whose `No.` does not contain the
`Order No.` regex (`na=False`). -/
def keepRow (r : CleanedRow) : Bool :=
  !containsMarkerOpt r.no

/-- Line 54: `cleaned_df = cleaned_df[~No..str.contains('Order No.', na=False)]`. -/
def afterMarker (df : List RawRow) : List CleanedRow :=
  (work1 df).filter keepRow

/-- Line 57: `No. = No..ffill()`, computed on the already-filtered frame. -/
def noFilledCol (df : List RawRow) : List (Option String) :=
  ffill ((afterMarker df).map fun r => r.no)

/-- Write the filled `No.` back into a row. -/
def setNo (r : CleanedRow) (n : Option String) : CleanedRow :=
  { r with no := n }

/-- The frame after line 57. -/
def work2 (df : List RawRow) : List CleanedRow :=
  List.zipWith setNo (afterMarker df) (noFilledCol df)

/-- Lines 59-73: `dropna(subset=['Description'])` keeps rows whose
Description is not NaN, then the column projection (already the
`CleanedRow` shape here).  This is the full `clean_data`. -/
def clean_data (df : List RawRow) : List CleanedRow :=
  (work2 df).filter fun r => r.description.isSome

/-- Whether the first list is a leading run of the second. -/
def leadsWith : List Char → List Char → Bool
  | [], _ => true
  | _ :: _, [] => false
  | a :: as, b :: bs => a == b && leadsWith as bs

/-- `str.endswith` on strings: plain (non-regex) suffix test. -/
def endsWithStr (suf s : String) : Bool :=
  leadsWith suf.toList.reverse s.toList.reverse

/-- Line 113 mask: `Customer_Name.str.endswith('Deli', na=False)`. -/
def endsWithDeliOpt : Option String → Bool
  | some s => endsWithStr "Deli" s
  | none => false

/-- Line 113: the Deli partition of the cleaned table. -/
def spp_deli (df : List RawRow) : List CleanedRow :=
  (clean_data df).filter fun r => endsWithDeliOpt r.customerName

/-- Line 114: the FOC partition of the cleaned table. -/
def spp_foc (df : List RawRow) : List CleanedRow :=
  (clean_data df).filter fun r => !endsWithDeliOpt r.customerName

/-- A cleaned row read back as a raw row for a second pipeline run: columns
keep their names where they coincide (`Type`, `Description`, `No.`,
`Quantity`); the `Shipment Date` column was removed by the projection, so
the re-run reads it as all-empty (the charitable reading of re-running on
the projected output; the literal program would fail on the missing
column). -/
def rerunRow (c : CleanedRow) : RawRow :=
  { type := c.type
    shipmentDate := none
    description := c.description
    no := c.no
    quantity := c.quantity }

/-- The cleaned output of `df` viewed as input for a second run. -/
def rerunInput (df : List RawRow) : List RawRow :=
  (clean_data df).map rerunRow

/-- Specification-side statement that a string contains a
two-digits/hyphen/two-digits/hyphen/two-digits window somewhere. -/
def ContainsDatePatSpec (s : String) : Prop :=
  ∃ (pre suf : List Char) (a b d e g h : Char),
    s.toList = pre ++ a :: b :: '-' :: d :: e :: '-' :: g :: h :: suf ∧
    a.isDigit = true ∧ b.isDigit = true ∧ d.isDigit = true ∧
    e.isDigit = true ∧ g.isDigit = true ∧ h.isDigit = true

/-- Example table: one row whose Description is the round-trip string of the
spec. -/
def exC3 : List RawRow :=
  [⟨none, none, some "12345 3/4/2024 widget restock", some "1", none⟩]

/-- The cleaned row produced from `exC3`. -/
def exC3row : CleanedRow :=
  ⟨none, none, none, none, some "1", some "12345", some ⟨2024, 3, 4⟩,
    some "widget restock", none⟩

/-- Example table: a Shipment Date value that contains, but is not equal to,
a `dd-dd-dd` window. -/
def exC2 : List RawRow :=
  [⟨none, some "ab01-02-23", some "x", some "1", none⟩]

/-- Example table: a Description that is exactly one order-pattern match, so
extraction-and-strip reduces it to the empty string. -/
def exC5 : List RawRow :=
  [⟨none, none, some "12345 6/7/2024", some "3", none⟩]

/-- Example table: a Description containing two order-pattern matches. -/
def exC7 : List RawRow :=
  [⟨none, none, some "11111 1/1/2011 a 22222 2/2/2022 b", some "1", none⟩]

/-- A string with one character before its single order-pattern match. -/
def exC7l : List Char := "x11111 1/1/2011y".toList

/-- The leftmost order match inside `exC7l`. -/
def exC7m : OrderMatch :=
  ⟨"x".toList, "11111".toList, " ".toList, "1/1/2011".toList, "y".toList⟩

/-- Example table: a matched-but-unparsable Shipment Date and an order
pattern with an impossible calendar date. -/
def exC8 : List RawRow :=
  [⟨none, some "99-99-99", some "12345 99/99/2024 stuff", some "4", none⟩]

/-- Example table: a customer header row followed by one item row. -/
def exC9 : List RawRow :=
  [⟨some "Acme Deli", some "ID1", none, none, none⟩,
   ⟨some "Item", some "01-02-23", some "widget", some "1", some 5⟩]

/-- The single cleaned row produced from `exC9`. -/
def exC9row : CleanedRow :=
  ⟨some "ID1", some ⟨2023, 1, 2⟩, some "Acme Deli", some "Item", some "1",
    none, none, some "widget", some 5⟩

/-- Example table: the second row has a `No.` value that is not the literal
marker but contains `Order No` followed by a character. -/
def exC10 : List RawRow :=
  [⟨none, none, some "aaa", some "7", none⟩,
   ⟨none, none, some "zzz", some "XOrder Now", none⟩]

/-- Example table for the forward-fill witness: an anchor row, an empty row,
and an item row. -/
def exW1 : List RawRow :=
  [⟨some "Alpha", some "ID9", none, some "4", none⟩,
   ⟨none, none, some "item a", none, none⟩,
   ⟨some "Item", none, some "item b", some "5", none⟩]

/-- Example table: a classified Shipment Date value for the classification
witness. -/
def exW2 : List RawRow :=
  [⟨none, some "01-02-23", some "x", some "1", none⟩]

/-! ## Helper lemmas -/

theorem ffillGo_length (acc : Option α) (xs : List (Option α)) :
    (ffillGo acc xs).length = xs.length := by
  induction xs generalizing acc with
  | nil => rfl
  | cons x rest ih => simp [ffillGo, ih]

theorem ffill_length (xs : List (Option α)) : (ffill xs).length = xs.length :=
  ffillGo_length none xs

theorem ffillGo_getD (xs : List (Option α)) :
    ∀ (acc : Option α) (i : Nat), i < xs.length →
      (ffillGo acc xs).getD i none = fallbackOpt (lastVal (xs.take (i + 1))) acc := by
  induction xs with
  | nil => intro acc i h; simp at h
  | cons x rest ih =>
    intro acc i h
    cases i with
    | zero =>
      show fallbackOpt x acc = fallbackOpt (lastVal ((x :: rest).take 1)) acc
      simp [lastVal]
    | succ k =>
      have hk : k < rest.length := Nat.lt_of_succ_lt_succ (by simpa using h)
      have ihk := ih (fallbackOpt x acc) k hk
      show (ffillGo (fallbackOpt x acc) rest).getD k none
          = fallbackOpt (lastVal (x :: rest.take (k + 1))) acc
      rw [ihk]
      cases hlv : lastVal (rest.take (k + 1)) with
      | some v => simp [lastVal, hlv, fallbackOpt]
      | none => simp [lastVal, hlv, fallbackOpt]

theorem ffill_getD (xs : List (Option α)) (i : Nat) (h : i < xs.length) :
    (ffill xs).getD i none = lastVal (xs.take (i + 1)) := by
  rw [ffill, ffillGo_getD xs none i h]
  cases lastVal (xs.take (i + 1)) <;> rfl

theorem ffillGo_mem (xs : List (Option α)) :
    ∀ (acc v : Option α), v ∈ ffillGo acc xs → v = acc ∨ v ∈ xs := by
  induction xs with
  | nil => intro acc v hv; simp [ffillGo] at hv
  | cons x rest ih =>
    intro acc v hv
    simp only [ffillGo, List.mem_cons] at hv
    rcases hv with h1 | h2
    · cases x with
      | some w => right; rw [h1]; exact List.mem_cons_self _ _
      | none => left; rw [h1]; rfl
    · rcases ih (fallbackOpt x acc) v h2 with h3 | h4
      · cases x with
        | some w => right; rw [h3]; exact List.mem_cons_self _ _
        | none => left; rw [h3]; rfl
      · right; exact List.mem_cons_of_mem _ h4

theorem ffill_mem (xs : List (Option α)) (v : Option α) (hv : v ∈ ffill xs) :
    v = none ∨ v ∈ xs :=
  ffillGo_mem xs none v hv

theorem zipWith_mem_exists (f : α → β → γ) :
    ∀ (as : List α) (bs : List β) (c : γ), c ∈ List.zipWith f as bs →
      ∃ a b, a ∈ as ∧ b ∈ bs ∧ c = f a b := by
  intro as
  induction as with
  | nil => intro bs c hc; simp at hc
  | cons a as ih =>
    intro bs c hc
    cases bs with
    | nil => simp at hc
    | cons b bs =>
      simp only [List.zipWith, List.mem_cons] at hc
      rcases hc with h | h
      · exact ⟨a, b, List.mem_cons_self _ _, List.mem_cons_self _ _, h⟩
      · obtain ⟨a2, b2, ha, hb, heq⟩ := ih bs c h
        exact ⟨a2, b2, List.mem_cons_of_mem _ ha, List.mem_cons_of_mem _ hb, heq⟩

theorem filter_length_both (l : List α) (p : α → Bool) :
    (l.filter p).length + (l.filter fun a => !(p a)).length = l.length := by
  induction l with
  | nil => rfl
  | cons x rest ih =>
    cases hx : p x <;> simp [List.filter_cons, hx] <;> omega

theorem getD_lt (l : List α) (d : α) (i : Nat) (h : i < l.length) :
    l.getD i d = l.get ⟨i, h⟩ := by
  rw [List.getD_eq_get?, List.get?_eq_get h]; rfl

theorem map_getD_lt (l : List α) (f : α → β) (d : β) (i : Nat) (h : i < l.length) :
    (l.map f).getD i d = f (l.get ⟨i, h⟩) := by
  rw [List.getD_eq_get?, List.get?_map, List.get?_eq_get h]; rfl

/-! ## C1: forward-fill correctness -/

/-- C1: for every propagated column (Customer_Name, CID, the Shipment_Date
strings, Order_No, the Order_Date strings, and No. on the marker-filtered
frame, exactly as each `.ffill()` call of `clean_data` is applied), the
filled value at each row is the value of the nearest preceding row (in the
frame order at fill time, the original upload order) holding a non-empty
value, and stays empty when no such row exists — forward-fill never
fabricates a value. -/
theorem c1_forward_fill (df : List RawRow) (i : Nat) (h : i < df.length) :
    (customerNameCol df).getD i none = lastVal ((customerNameRawCol df).take (i + 1)) ∧
    (cidCol df).getD i none = lastVal ((cidRawCol df).take (i + 1)) ∧
    (shipFilledCol df).getD i none = lastVal ((shipRawCol df).take (i + 1)) ∧
    (orderNoCol df).getD i none = lastVal ((orderNoRawCol df).take (i + 1)) ∧
    (orderDateFilledCol df).getD i none = lastVal ((orderDateRawCol df).take (i + 1)) ∧
    ∀ j, j < (afterMarker df).length →
      (noFilledCol df).getD j none =
        lastVal (((afterMarker df).map fun r => r.no).take (j + 1)) := by
  refine ⟨?_, ?_, ?_, ?_, ?_, ?_⟩
  · exact ffill_getD _ i (by simpa [customerNameRawCol] using h)
  · exact ffill_getD _ i (by simpa [cidRawCol] using h)
  · exact ffill_getD _ i (by simpa [shipRawCol] using h)
  · exact ffill_getD _ i (by simpa [orderNoRawCol] using h)
  · exact ffill_getD _ i (by simpa [orderDateRawCol] using h)
  · intro j hj
    exact ffill_getD _ j (by simpa using hj)

/-- Witness for C1 at the concrete table `exW1`, row index 2. -/
theorem c1_forward_fill_witness :
    (customerNameCol exW1).getD 2 none = lastVal ((customerNameRawCol exW1).take 3) ∧
    (cidCol exW1).getD 2 none = lastVal ((cidRawCol exW1).take 3) ∧
    (shipFilledCol exW1).getD 2 none = lastVal ((shipRawCol exW1).take 3) ∧
    (orderNoCol exW1).getD 2 none = lastVal ((orderNoRawCol exW1).take 3) ∧
    (orderDateFilledCol exW1).getD 2 none = lastVal ((orderDateRawCol exW1).take 3) ∧
    (noFilledCol exW1).getD 2 none =
      lastVal (((afterMarker exW1).map fun r => r.no).take 3) := by
  have T := c1_forward_fill exW1 2 (by decide)
  exact ⟨T.1, T.2.1, T.2.2.1, T.2.2.2.1, T.2.2.2.2.1, T.2.2.2.2.2 2 (by decide)⟩

/-! ## C2: Shipment Date classification -/

theorem isDatePatAt_true (l : List Char) :
    isDatePatAt l = true ↔
      ∃ (a b d e g h : Char) (rest : List Char),
        l = a :: b :: '-' :: d :: e :: '-' :: g :: h :: rest ∧
        a.isDigit = true ∧ b.isDigit = true ∧ d.isDigit = true ∧
        e.isDigit = true ∧ g.isDigit = true ∧ h.isDigit = true := by
  constructor
  · intro hm
    rcases l with _ | ⟨a, _ | ⟨b, _ | ⟨c, _ | ⟨d, _ | ⟨e, _ | ⟨f, _ | ⟨g, _ | ⟨h, rest⟩⟩⟩⟩⟩⟩⟩⟩ <;>
      simp only [isDatePatAt] at hm <;>
      try exact Bool.noConfusion hm
    simp only [Bool.and_eq_true, beq_iff_eq] at hm
    obtain ⟨⟨⟨⟨⟨⟨⟨ha, hb⟩, hc⟩, hd⟩, he⟩, hf⟩, hg⟩, hh⟩ := hm
    subst hc
    subst hf
    exact ⟨a, b, d, e, g, h, rest, rfl, ha, hb, hd, he, hg, hh⟩
  · rintro ⟨a, b, d, e, g, h, rest, heq, ha, hb, hd, he, hg, hh⟩
    subst heq
    simp [isDatePatAt, ha, hb, hd, he, hg, hh]

theorem containsDatePat_true (l : List Char) :
    containsDatePat l = true ↔
      ∃ (pre suf : List Char) (a b d e g h : Char),
        l = pre ++ a :: b :: '-' :: d :: e :: '-' :: g :: h :: suf ∧
        a.isDigit = true ∧ b.isDigit = true ∧ d.isDigit = true ∧
        e.isDigit = true ∧ g.isDigit = true ∧ h.isDigit = true := by
  induction l with
  | nil =>
    constructor
    · intro hm; simp [containsDatePat] at hm
    · rintro ⟨pre, suf, a, b, d, e, g, h, heq, _⟩
      cases pre <;> simp at heq
  | cons c rest ih =>
    constructor
    · intro hm
      rw [containsDatePat] at hm
      rcases (Bool.or_eq_true _ _).mp hm with h1 | h2
      · obtain ⟨a, b, d, e, g, h, r2, heq, ha, hb, hd, he, hg, hh⟩ :=
          (isDatePatAt_true _).mp h1
        exact ⟨[], r2, a, b, d, e, g, h, by simpa using heq, ha, hb, hd, he, hg, hh⟩
      · obtain ⟨pre, suf, a, b, d, e, g, h, heq, ha, hb, hd, he, hg, hh⟩ := ih.mp h2
        exact ⟨c :: pre, suf, a, b, d, e, g, h, by rw [heq]; rfl, ha, hb, hd, he, hg, hh⟩
    · rintro ⟨pre, suf, a, b, d, e, g, h, heq, ha, hb, hd, he, hg, hh⟩
      rw [containsDatePat]
      apply (Bool.or_eq_true _ _).mpr
      cases pre with
      | nil =>
        left
        simp only [List.nil_append] at heq
        rw [heq]
        exact (isDatePatAt_true _).mpr ⟨a, b, d, e, g, h, suf, rfl, ha, hb, hd, he, hg, hh⟩
      | cons p ps =>
        right
        have hc : c = p ∧ rest = ps ++ a :: b :: '-' :: d :: e :: '-' :: g :: h :: suf := by
          simpa using heq
        exact ih.mpr ⟨ps, suf, a, b, d, e, g, h, hc.2, ha, hb, hd, he, hg, hh⟩

/-- C2 (amended): the Shipment Date split is by regex search, not full
match: a non-empty value is routed to the Shipment_Date side exactly when
it contains a two-digit/two-digit/two-digit hyphenated window anywhere
(the spec-side existential), and to the CID side otherwise. -/
theorem c2_shipment_classification :
    (∀ s : String, containsDatePat s.toList = true ↔ ContainsDatePatSpec s) ∧
    (∀ (df : List RawRow) (i : Nat) (h : i < df.length) (s : String),
      (df.get ⟨i, h⟩).shipmentDate = some s →
        (shipRawCol df).getD i none = (if containsDatePat s.toList then some s else none) ∧
        (cidRawCol df).getD i none = (if containsDatePat s.toList then none else some s)) := by
  constructor
  · intro s
    rw [containsDatePat_true]
    constructor
    · rintro ⟨pre, suf, a, b, d, e, g, h, heq, hs⟩
      exact ⟨pre, suf, a, b, d, e, g, h, heq, hs⟩
    · rintro ⟨pre, suf, a, b, d, e, g, h, heq, hs⟩
      exact ⟨pre, suf, a, b, d, e, g, h, heq, hs⟩
  · intro df i h s hs
    have h1 : (shipRawCol df).getD i none
        = optFilter (fun t => containsDatePat t.toList) (df.get ⟨i, h⟩).shipmentDate :=
      map_getD_lt df _ none i h
    have h2 : (cidRawCol df).getD i none
        = optFilter (fun t => !(containsDatePat t.toList)) (df.get ⟨i, h⟩).shipmentDate :=
      map_getD_lt df _ none i h
    rw [hs] at h1 h2
    constructor
    · rw [h1]
      show (if containsDatePat s.toList then some s else none) = _
      rfl
    · rw [h2]
      show (if !(containsDatePat s.toList) then some s else none) = _
      cases containsDatePat s.toList <;> rfl

/-- C2 counterexample: the value `"ab01-02-23"` merely contains a
`dd-dd-dd` window, yet the code routes it to the Shipment_Date side and the
CID cell stays empty, where the claim as stated routes it to CID. -/
theorem c2_counterexample :
    shipRawCol exC2 = [some "ab01-02-23"] ∧
    cidRawCol exC2 = [none] ∧
    (clean_data exC2).map (fun r => r.cid) = [none] := by
  refine ⟨?_, ?_, ?_⟩ <;> rfl

/-- Witness for C2 at the concrete table `exW2`. -/
theorem c2_shipment_classification_witness :
    ContainsDatePatSpec "01-02-23" ∧ (shipRawCol exW2).getD 0 none = some "01-02-23" := by
  have T := c2_shipment_classification
  constructor
  · exact (T.1 "01-02-23").mp (by decide)
  · have h := (T.2 exW2 0 (by decide) "01-02-23" rfl).1
    rw [h]
    decide

/-! ## C3: extraction round trip -/

/-- C3: on a Description of `"12345 3/4/2024 widget restock"` the pipeline
yields Order_No `"12345"`, Order_Date the parsed calendar date of
`"3/4/2024"`, and Description `"widget restock"` with the matched substring
removed and surrounding whitespace trimmed. -/
theorem c3_extraction_round_trip :
    (clean_data exC3).map (fun r => (r.orderNo, r.orderDate, r.description))
      = [(some "12345", parseSlashDate "3/4/2024", some "widget restock")] ∧
    parseSlashDate "3/4/2024" = some ⟨2024, 3, 4⟩ :=
  ⟨rfl, rfl⟩

/-! ## C4: marker exclusion -/

/-- Every row of the cleaned output has a `No.` value free of the
`Order No.` marker pattern: marker rows are dropped at line 54 before the
line 57 forward-fill, and the fill can only copy surviving values. -/
theorem clean_data_no_marker_free (df : List RawRow) (r : CleanedRow)
    (hr : r ∈ clean_data df) : containsMarkerOpt r.no = false := by
  have h1 : r ∈ work2 df := (List.mem_filter.mp hr).1
  obtain ⟨a, n, ha, hn, heq⟩ := zipWith_mem_exists setNo (afterMarker df) (noFilledCol df) r h1
  have hno : r.no = n := by rw [heq]; rfl
  rcases ffill_mem _ n hn with h2 | h2
  · rw [hno, h2]; rfl
  · obtain ⟨a2, ha2, hna⟩ := List.mem_map.mp h2
    have hk : keepRow a2 = true := (List.mem_filter.mp ha2).2
    have : containsMarkerOpt a2.no = false := by
      simpa [keepRow] using hk
    rw [hno, ← hna]
    exact this

/-- C4: a row whose `No.` value is the literal marker `"Order No."` never
appears in the cleaned output (its `No.` would have survived unchanged, and
no output row carries it), and forward-fill of `No.` is never contaminated
by the marker since the exclusion runs before the fill. -/
theorem c4_marker_exclusion (df : List RawRow) (r : CleanedRow)
    (hr : r ∈ clean_data df) : r.no ≠ some "Order No." := by
  intro heq
  have h := clean_data_no_marker_free df r hr
  rw [heq] at h
  have ht : containsMarkerOpt (some "Order No.") = true := by decide
  rw [ht] at h
  exact Bool.noConfusion h

/-- Witness for C4 at the concrete table `exC3`. -/
theorem c4_marker_exclusion_witness :
    exC3row ∈ clean_data exC3 ∧ exC3row.no ≠ some "Order No." :=
  ⟨by decide, c4_marker_exclusion exC3 exC3row (by decide)⟩

/-! ## C5: Description filter -/

/-- C5 counterexample: a Description that is exactly one order-pattern
match is reduced to the empty string by extraction-and-strip, yet the row
is kept in the cleaned output (`dropna` drops only null cells, not empty
strings), where the claim says such a row is dropped. -/
theorem c5_counterexample :
    (clean_data exC5).map (fun r => r.description) = [some ""] :=
  rfl

/-- C5 (amended): only rows whose Description is null (missing before the
rewrite, since the rewrite maps strings to strings) are dropped by the
final filter; every cleaned row has a non-null Description, but an empty
string survives. -/
theorem c5_null_description_filter (df : List RawRow) (r : CleanedRow)
    (hr : r ∈ clean_data df) : r.description ≠ none := by
  have h := (List.mem_filter.mp hr).2
  intro hnone
  rw [hnone] at h
  exact Bool.noConfusion h

/-- Witness for C5 at the concrete table `exC3`. -/
theorem c5_null_description_filter_witness :
    exC3row ∈ clean_data exC3 ∧ exC3row.description ≠ none :=
  ⟨by decide, c5_null_description_filter exC3 exC3row (by decide)⟩

/-! ## C10: marker containment over-drop -/

/-- C10: the line 54 marker test is a regex containment test, so the row of
`exC10` whose `No.` is `"XOrder Now"` — not equal to `"Order No."` but
containing `Order No` followed by a character — is also removed from the
cleaned output (only the `"aaa"` row survives). -/
theorem c10_marker_over_drop :
    (clean_data exC10).map (fun r => r.description) = [some "aaa"] ∧
    (some "XOrder Now" : Option String) ≠ some "Order No." ∧
    containsMarkerOpt (some "XOrder Now") = true :=
  ⟨rfl, by decide, rfl⟩

/-! ## C6: partition completeness -/

/-- C6: the Deli and FOC subsets partition the cleaned table: their lengths
add up to the cleaned length, membership is decided by the case-sensitive
`endswith('Deli')` test (null Customer_Name rows go to FOC), no row is in
both, every cleaned row is in one, and `"Global Deli Express"` fails the
suffix test. -/
theorem c6_partition (df : List RawRow) :
    (spp_deli df).length + (spp_foc df).length = (clean_data df).length ∧
    (∀ r, r ∈ spp_deli df → r ∈ clean_data df ∧ endsWithDeliOpt r.customerName = true) ∧
    (∀ r, r ∈ spp_foc df → r ∈ clean_data df ∧ endsWithDeliOpt r.customerName = false) ∧
    (∀ r, r ∈ clean_data df →
      (r ∈ spp_deli df ∧ r ∉ spp_foc df) ∨ (r ∈ spp_foc df ∧ r ∉ spp_deli df)) ∧
    (∀ r, r ∈ clean_data df → r.customerName = none → r ∈ spp_foc df) ∧
    endsWithDeliOpt (some "Global Deli Express") = false := by
  refine ⟨?_, ?_, ?_, ?_, ?_, ?_⟩
  · exact filter_length_both (clean_data df) (fun r => endsWithDeliOpt r.customerName)
  · intro r hr
    have h := List.mem_filter.mp hr
    exact ⟨h.1, h.2⟩
  · intro r hr
    have h := List.mem_filter.mp hr
    exact ⟨h.1, by simpa using h.2⟩
  · intro r hr
    cases hcn : endsWithDeliOpt r.customerName with
    | true =>
      left
      refine ⟨List.mem_filter.mpr ⟨hr, hcn⟩, ?_⟩
      intro hf
      have := (List.mem_filter.mp hf).2
      rw [hcn] at this
      exact Bool.noConfusion this
    | false =>
      right
      refine ⟨List.mem_filter.mpr ⟨hr, by rw [hcn]; rfl⟩, ?_⟩
      intro hd
      have := (List.mem_filter.mp hd).2
      rw [hcn] at this
      exact Bool.noConfusion this
  · intro r hr hcn
    exact List.mem_filter.mpr ⟨hr, by rw [hcn]; rfl⟩
  · decide

/-- Witness for C6 at the concrete table `exC9`, whose single cleaned row
carries the Deli-suffixed customer name. -/
theorem c6_partition_witness :
    (spp_deli exC9).length + (spp_foc exC9).length = (clean_data exC9).length ∧
    exC9row ∈ clean_data exC9 ∧ endsWithDeliOpt exC9row.customerName = true :=
  ⟨(c6_partition exC9).1, (c6_partition exC9).2.1 exC9row (by decide)⟩

/-! ## C7: first-match extraction and match removal -/

theorem length_dropWhile_le (p : α → Bool) (l : List α) :
    (l.dropWhile p).length ≤ l.length := by
  have h := congrArg List.length (List.takeWhile_append_dropWhile p l)
  simp only [List.length_append] at h
  omega

theorem matchD12slash_spec (l g r : List Char) (h : matchD12slash l = some (g, r)) :
    l = g ++ r ∧ r.length < l.length := by
  rcases l with _ | ⟨a, _ | ⟨b, _ | ⟨c, rest⟩⟩⟩
  · exact absurd h (by simp [matchD12slash])
  · exact absurd h (by simp [matchD12slash])
  · simp only [matchD12slash] at h
    split at h
    · simp only [Option.some.injEq, Prod.mk.injEq] at h
      obtain ⟨rfl, rfl⟩ := h
      exact ⟨rfl, by simp⟩
    · exact absurd h (by simp)
  · simp only [matchD12slash] at h
    split at h
    · simp only [Option.some.injEq, Prod.mk.injEq] at h
      obtain ⟨rfl, rfl⟩ := h
      refine ⟨rfl, by simp; omega⟩
    · split at h
      · simp only [Option.some.injEq, Prod.mk.injEq] at h
        obtain ⟨rfl, rfl⟩ := h
        refine ⟨rfl, by simp⟩
      · exact absurd h (by simp)


theorem matchYear_spec (l g r : List Char) (h : matchYear l = some (g, r)) :
    l = g ++ r ∧ r.length < l.length := by
  rcases l with _ | ⟨a, _ | ⟨b, _ | ⟨c, _ | ⟨d, rest⟩⟩⟩⟩ <;>
    simp only [matchYear] at h <;>
    try exact Option.noConfusion h
  split at h
  · simp only [Option.some.injEq, Prod.mk.injEq] at h
    obtain ⟨rfl, rfl⟩ := h
    refine ⟨rfl, by simp; omega⟩
  · exact absurd h (by simp)

theorem matchDate_spec (l dt r : List Char) (h : matchDate l = some (dt, r)) :
    l = dt ++ r ∧ r.length < l.length := by
  rw [matchDate, Option.bind_eq_some] at h
  obtain ⟨⟨g1, r1⟩, h1, h⟩ := h
  dsimp only at h
  rw [Option.bind_eq_some] at h
  obtain ⟨⟨g2, r2⟩, h2, h⟩ := h
  dsimp only at h
  rw [Option.map_eq_some'] at h
  obtain ⟨⟨g3, r3⟩, h3, h4⟩ := h
  dsimp only at h2 h3 h4
  simp only [Prod.mk.injEq] at h4
  obtain ⟨rfl, rfl⟩ := h4
  obtain ⟨e1, l1⟩ := matchD12slash_spec _ _ _ h1
  obtain ⟨e2, l2⟩ := matchD12slash_spec _ _ _ h2
  obtain ⟨e3, l3⟩ := matchYear_spec _ _ _ h3
  constructor
  · rw [e1, e2, e3]
    simp [List.append_assoc]
  · omega

theorem matchOrderAt_spec (l ds ws dt rest : List Char)
    (h : matchOrderAt l = some (ds, ws, dt, rest)) :
    l = ds ++ ws ++ dt ++ rest ∧ rest.length < l.length := by
  simp only [matchOrderAt] at h
  split at h
  · exact Option.noConfusion h
  · split at h
    · exact Option.noConfusion h
    · rw [Option.map_eq_some'] at h
      obtain ⟨⟨dt2, rest2⟩, hmd, heq⟩ := h
      dsimp only at heq
      simp only [Prod.mk.injEq] at heq
      obtain ⟨rfl, rfl, rfl, rfl⟩ := heq
      obtain ⟨e3, l3⟩ := matchDate_spec _ _ _ hmd
      have e0 : l = l.takeWhile Char.isDigit ++ l.dropWhile Char.isDigit :=
        (List.takeWhile_append_dropWhile _ _).symm
      have e2 : l.dropWhile Char.isDigit
          = (l.dropWhile Char.isDigit).takeWhile Char.isWhitespace
            ++ (l.dropWhile Char.isDigit).dropWhile Char.isWhitespace :=
        (List.takeWhile_append_dropWhile _ _).symm
      have l1 := length_dropWhile_le Char.isDigit l
      have l2 := length_dropWhile_le Char.isWhitespace (l.dropWhile Char.isDigit)
      constructor
      · conv_lhs => rw [e0, e2, e3]
        simp [List.append_assoc]
      · omega

theorem searchOrder_spec : ∀ (l : List Char) (m : OrderMatch), searchOrder l = some m →
    l = m.pre ++ m.orderNo ++ m.ws ++ m.orderDate ++ m.rest ∧
    (∀ j, j < m.pre.length → matchOrderAt (l.drop j) = none) ∧
    matchOrderAt (l.drop m.pre.length) = some (m.orderNo, m.ws, m.orderDate, m.rest) := by
  intro l
  induction l with
  | nil => intro m h; exact absurd h (by simp [searchOrder])
  | cons c r ih =>
    intro m h
    rw [searchOrder] at h
    cases h1 : matchOrderAt (c :: r) with
    | some q =>
      rcases q with ⟨ds, ws, dt, rest⟩
      rw [h1] at h
      simp only [Option.some.injEq] at h
      subst h
      refine ⟨?_, ?_, ?_⟩
      · simpa using (matchOrderAt_spec _ _ _ _ _ h1).1
      · intro j hj
        simp at hj
      · simpa using h1
    | none =>
      rw [h1] at h
      cases h2 : searchOrder r with
      | none => rw [h2] at h; exact Option.noConfusion h
      | some m2 =>
        rw [h2] at h
        simp only [Option.some.injEq] at h
        subst h
        obtain ⟨e1, e2, e3⟩ := ih m2 h2
        refine ⟨?_, ?_, ?_⟩
        · simpa using congrArg (List.cons c) e1
        · intro j hj
          cases j with
          | zero => simpa using h1
          | succ k =>
            have hk : k < m2.pre.length := by simpa using hj
            simpa using e2 k hk
        · simpa using e3

theorem searchOrder_rest_lt (l : List Char) (m : OrderMatch)
    (h : searchOrder l = some m) : m.rest.length < l.length := by
  obtain ⟨e1, e2, e3⟩ := searchOrder_spec l m h
  have h4 := (matchOrderAt_spec _ _ _ _ _ e3).2
  have h5 : (l.drop m.pre.length).length ≤ l.length := by
    rw [List.length_drop]
    exact Nat.sub_le _ _
  omega

theorem removeAllGo_nil : ∀ fuel : Nat, removeAllGo fuel [] = [] := by
  intro fuel
  cases fuel <;> rfl

theorem removeAllGo_congr : ∀ (f1 : Nat) (l : List Char) (f2 : Nat),
    l.length ≤ f1 → l.length ≤ f2 → removeAllGo f1 l = removeAllGo f2 l := by
  intro f1
  induction f1 with
  | zero =>
    intro l f2 h1 _
    have hl : l = [] := List.length_eq_zero.mp (Nat.le_zero.mp h1)
    subst hl
    rw [removeAllGo_nil, removeAllGo_nil]
  | succ n ih =>
    intro l f2 h1 h2
    cases f2 with
    | zero =>
      have hl : l = [] := List.length_eq_zero.mp (Nat.le_zero.mp h2)
      subst hl
      rw [removeAllGo_nil, removeAllGo_nil]
    | succ k =>
      rw [removeAllGo, removeAllGo]
      cases hs : searchOrder l with
      | none => rfl
      | some m =>
        have hlt := searchOrder_rest_lt l m hs
        show m.pre ++ removeAllGo n m.rest = m.pre ++ removeAllGo k m.rest
        rw [ih m.rest k (by omega) (by omega)]

theorem removeAllOrder_step (l : List Char) (m : OrderMatch)
    (h : searchOrder l = some m) :
    removeAllOrder l = m.pre ++ removeAllOrder m.rest := by
  have hlt := searchOrder_rest_lt l m h
  rw [removeAllOrder, removeAllOrder]
  cases hl : l.length with
  | zero =>
    have : l = [] := List.length_eq_zero.mp hl
    subst this
    exact absurd h (by simp [searchOrder])
  | succ n =>
    rw [removeAllGo, h]
    show m.pre ++ removeAllGo n m.rest = m.pre ++ removeAllGo m.rest.length m.rest
    rw [removeAllGo_congr n m.rest m.rest.length (by omega) (Nat.le_refl _)]

/-- C7 (amended): Order_No and Order_Date are taken from the leftmost match
only (no earlier start position matches, and the match at `pre` is exactly
the captured groups), but the line 51 removal behaves like `re.sub`: it
also removes every later non-overlapping match from Description instead of
leaving them in place. -/
theorem c7_first_match_extraction (l : List Char) (m : OrderMatch)
    (h : searchOrder l = some m) :
    l = m.pre ++ m.orderNo ++ m.ws ++ m.orderDate ++ m.rest ∧
    (∀ j, j < m.pre.length → matchOrderAt (l.drop j) = none) ∧
    matchOrderAt (l.drop m.pre.length) = some (m.orderNo, m.ws, m.orderDate, m.rest) ∧
    removeAllOrder l = m.pre ++ removeAllOrder m.rest ∧
    (∀ s : String, s.toList = l →
      orderNoOf (some s) = some (String.mk m.orderNo) ∧
      orderDateStrOf (some s) = some (String.mk m.orderDate) ∧
      Option.map descTransform (some s)
        = some (String.mk (stripL (m.pre ++ removeAllOrder m.rest)))) := by
  obtain ⟨e1, e2, e3⟩ := searchOrder_spec l m h
  refine ⟨e1, e2, e3, removeAllOrder_step l m h, ?_⟩
  intro s hs
  have hs2 : s.data = l := hs
  refine ⟨?_, ?_, ?_⟩
  · simp [orderNoOf, hs2, h]
  · simp [orderDateStrOf, hs2, h]
  · simp [descTransform, hs2, removeAllOrder_step l m h]

/-- C7 counterexample: with two order headers in one Description the
extracted fields come from the first match, but the Description keeps
neither match — the second matching substring is removed as well, so the
output is `"a  b"` rather than the claimed `"a 22222 2/2/2022 b"`. -/
theorem c7_counterexample :
    (clean_data exC7).map (fun r => (r.orderNo, r.orderDate, r.description))
      = [(some "11111", some ⟨2011, 1, 1⟩, some "a  b")] ∧
    ¬ ((clean_data exC7).map (fun r => r.description) = [some "a 22222 2/2/2022 b"]) :=
  ⟨rfl, by decide⟩

/-- Witness for C7 at the concrete string `exC7l` with match `exC7m`. -/
theorem c7_first_match_extraction_witness :
    exC7l = exC7m.pre ++ exC7m.orderNo ++ exC7m.ws ++ exC7m.orderDate ++ exC7m.rest ∧
    matchOrderAt (exC7l.drop 0) = none ∧
    matchOrderAt (exC7l.drop exC7m.pre.length)
      = some (exC7m.orderNo, exC7m.ws, exC7m.orderDate, exC7m.rest) ∧
    removeAllOrder exC7l = exC7m.pre ++ removeAllOrder exC7m.rest ∧
    orderNoOf (some "x11111 1/1/2011y") = some (String.mk exC7m.orderNo) := by
  have T := c7_first_match_extraction exC7l exC7m (by decide)
  exact ⟨T.1, T.2.1 0 (by decide), T.2.2.1, T.2.2.2.1,
    (T.2.2.2.2 "x11111 1/1/2011y" rfl).1⟩

/-! ## C8: malformed date recovery -/

/-- C8: a matched-but-unparsable date string in either extraction step
coerces to null (NaT) in the corresponding date column, and row retention
is decided only by the marker filter and the Description filter — a row
with both filters passing stays in the cleaned output with its (possibly
null) date fields, so no date parse failure drops a row or fails the
pipeline. -/
theorem c8_malformed_date_recovery (df : List RawRow) (i : Nat) (h : i < df.length) :
    (∀ s : String, (shipFilledCol df).getD i none = some s → parseDashDate s = none →
      (shipmentDateCol df).getD i none = none) ∧
    (∀ s : String, (orderDateFilledCol df).getD i none = some s → parseSlashDate s = none →
      (orderDateCol df).getD i none = none) ∧
    (containsMarkerOpt ((noRawCol df).getD i none) = false →
      ((descCol df).getD i none).isSome = true →
      ∃ r, r ∈ clean_data df ∧
        r.description = (descCol df).getD i none ∧
        r.shipmentDate = (shipmentDateCol df).getD i none ∧
        r.cid = (cidCol df).getD i none) := by
  refine ⟨?_, ?_, ?_⟩
  · intro s hs hp
    have h1 : i < (shipFilledCol df).length := by
      rw [shipFilledCol, ffill_length, shipRawCol, List.length_map]; exact h
    have e : (shipmentDateCol df).getD i none
        = ((shipFilledCol df).get ⟨i, h1⟩).bind parseDashDate :=
      map_getD_lt _ _ _ _ h1
    have e2 : (shipFilledCol df).get ⟨i, h1⟩ = some s := by
      rw [← getD_lt _ none i h1]; exact hs
    rw [e, e2]
    exact hp
  · intro s hs hp
    have h1 : i < (orderDateFilledCol df).length := by
      rw [orderDateFilledCol, ffill_length, orderDateRawCol, List.length_map]; exact h
    have e : (orderDateCol df).getD i none
        = ((orderDateFilledCol df).get ⟨i, h1⟩).bind parseSlashDate :=
      map_getD_lt _ _ _ _ h1
    have e2 : (orderDateFilledCol df).get ⟨i, h1⟩ = some s := by
      rw [← getD_lt _ none i h1]; exact hs
    rw [e, e2]
    exact hp
  · intro hm hd
    have hw : mkWork df i ∈ work1 df :=
      List.mem_map.mpr ⟨i, List.mem_range.mpr h, rfl⟩
    have hkeep : keepRow (mkWork df i) = true := by
      show (!containsMarkerOpt ((noRawCol df).getD i none)) = true
      rw [hm]
      rfl
    have ha : mkWork df i ∈ afterMarker df := List.mem_filter.mpr ⟨hw, hkeep⟩
    obtain ⟨k, hk⟩ := List.mem_iff_get?.mp ha
    obtain ⟨hklen, _⟩ := List.get?_eq_some.mp hk
    have hnlen : k < (noFilledCol df).length := by
      rw [noFilledCol, ffill_length, List.length_map]; exact hklen
    obtain ⟨nv, hnv⟩ : ∃ nv, (noFilledCol df).get? k = some nv :=
      ⟨_, List.get?_eq_get hnlen⟩
    have hw2 : (work2 df).get? k = some (setNo (mkWork df i) nv) := by
      rw [work2, List.get?_zipWith, hk, hnv]
    have hmem2 : setNo (mkWork df i) nv ∈ work2 df := List.get?_mem hw2
    refine ⟨setNo (mkWork df i) nv, ?_, rfl, rfl, rfl⟩
    exact List.mem_filter.mpr ⟨hmem2, hd⟩

/-- Witness for C8 at the concrete table `exC8`: the shipment value
`"99-99-99"` and order date `"99/99/2024"` both coerce to null and the row
survives. -/
theorem c8_malformed_date_recovery_witness :
    (shipmentDateCol exC8).getD 0 none = none ∧
    (orderDateCol exC8).getD 0 none = none ∧
    ∃ r, r ∈ clean_data exC8 ∧
      r.description = (descCol exC8).getD 0 none ∧
      r.shipmentDate = (shipmentDateCol exC8).getD 0 none ∧
      r.cid = (cidCol exC8).getD 0 none := by
  have T := c8_malformed_date_recovery exC8 0 (by decide)
  exact ⟨T.1 "99-99-99" (by decide) (by decide),
    T.2.1 "99/99/2024" (by decide) (by decide),
    T.2.2 (by decide) (by decide)⟩

/-! ## C9: idempotence -/

/-- C9 counterexample: re-running the pipeline on its own projected output
(the removed `Shipment Date` column read back as empty) is not a no-op:
the single cleaned row of `exC9` has Customer_Name `"Acme Deli"`, but the
re-run recomputes Customer_Name from the already-filtered Type column and
wipes it to null, so the re-run output differs from the first output. -/
theorem c9_counterexample :
    (clean_data exC9).map (fun r => r.customerName) = [some "Acme Deli"] ∧
    (clean_data (rerunInput exC9)).map (fun r => r.customerName) = [none] ∧
    clean_data (rerunInput exC9) ≠ clean_data exC9 :=
  ⟨rfl, rfl, by decide⟩

/-- C9 (amended): re-running the pipeline on its own projected output
keeps the row set (every previously cleaned row passes both filters again,
so the row count is preserved), but the run is not a no-op: the columns
derived from the already-consumed sources (Customer_Name, CID,
Shipment_Date, Order_No, Order_Date) are recomputed and in general wiped,
as the counterexample shows; the literal program would fail outright since
the projected output no longer has a `Shipment Date` column. -/
theorem c9_rerun_row_count (df : List RawRow) :
    (clean_data (rerunInput df)).length = (clean_data df).length := by
  have e3 : (rerunInput df).length = (clean_data df).length := by
    rw [rerunInput, List.length_map]
  have hA : ∀ w ∈ work1 (rerunInput df), keepRow w = true := by
    intro w hw
    obtain ⟨i, hi, hwi⟩ := List.mem_map.mp hw
    have hilen : i < (rerunInput df).length := List.mem_range.mp hi
    have hlen2 : i < (clean_data df).length := by omega
    subst hwi
    show (!containsMarkerOpt ((noRawCol (rerunInput df)).getD i none)) = true
    have hcol : noRawCol (rerunInput df) = (clean_data df).map (fun c => c.no) := by
      rw [noRawCol, rerunInput, List.map_map]; rfl
    rw [hcol, map_getD_lt _ _ none i hlen2]
    rw [clean_data_no_marker_free df _ (List.get_mem (clean_data df) i hlen2)]
    rfl
  have hB : afterMarker (rerunInput df) = work1 (rerunInput df) := by
    rw [afterMarker]
    exact List.filter_eq_self.mpr hA
  have hC : ∀ r ∈ work2 (rerunInput df), r.description.isSome = true := by
    intro r hr
    obtain ⟨a, n, ha, hn, heq⟩ := zipWith_mem_exists setNo _ _ r hr
    subst heq
    rw [hB] at ha
    obtain ⟨i, hi, hwi⟩ := List.mem_map.mp ha
    have hilen : i < (rerunInput df).length := List.mem_range.mp hi
    have hlen2 : i < (clean_data df).length := by omega
    subst hwi
    show ((descCol (rerunInput df)).getD i none).isSome = true
    have hcol : descCol (rerunInput df)
        = (clean_data df).map (fun c => c.description.map descTransform) := by
      rw [descCol, rerunInput, List.map_map]; rfl
    rw [hcol, map_getD_lt _ _ none i hlen2]
    have hsome : (((clean_data df).get ⟨i, hlen2⟩).description).isSome = true :=
      (List.mem_filter.mp (List.get_mem (clean_data df) i hlen2)).2
    cases hcase : ((clean_data df).get ⟨i, hlen2⟩).description with
    | none => rw [hcase] at hsome; exact Bool.noConfusion hsome
    | some s => rfl
  have e1 : (noFilledCol (rerunInput df)).length = (afterMarker (rerunInput df)).length := by
    rw [noFilledCol, ffill_length, List.length_map]
  have e2 : (afterMarker (rerunInput df)).length = (rerunInput df).length := by
    rw [hB, work1, List.length_map, List.length_range]
  have hlen1 : (work2 (rerunInput df)).length = (clean_data df).length := by
    rw [work2, List.length_zipWith, e1, min_self, e2, e3]
  have hD : clean_data (rerunInput df) = work2 (rerunInput df) := by
    rw [clean_data]
    exact List.filter_eq_self.mpr hC
  rw [hD, hlen1]
